import Mathlib

/-!
Verification of the gorename-global rename engine.

The development shallowly embeds the program's core: the lint-style name
normalizer `lintName` (copied from go lint) and the exact-match rename,
the per-file walk over the parsed syntax tree, the per-package fan-out,
and the top-level orchestration (flag validation, error aggregation,
change reporting).  Go runes are modelled as `Char`; the `unicode`
character-class and case functions are modelled by their ASCII fragment
(all inputs appearing in the claims are ASCII, and Lean's `Char.toUpper`
and `Char.toLower` agree with Go's on ASCII).
-/

/-- ASCII fragment of Go's unicode.IsLower. -/
def goIsLower (c : Char) : Bool := 'a' ≤ c && c ≤ 'z'

/-- ASCII fragment of Go's unicode.IsDigit. -/
def goIsDigit (c : Char) : Bool := '0' ≤ c && c ≤ '9'

/-- Go's unicode.ToUpper, ASCII fragment (Lean's Char.toUpper is exactly that). -/
def goToUpper (c : Char) : Char := c.toUpper

/-- Go's unicode.ToLower, ASCII fragment. -/
def goToLower (c : Char) : Char := c.toLower

/-- The fixed table of recognized initialisms, copied from go lint
(`commonInitialisms` in the source). -/
def commonInitialisms : List String :=
  ["API", "ASCII", "CPU", "CSS", "DNS", "EOF", "GUID", "HTML", "HTTP",
   "HTTPS", "ID", "IP", "JSON", "LHS", "QPS", "RAM", "RHS", "RPC", "SLA",
   "SMTP", "SQL", "SSH", "TCP", "TLS", "TTL", "UDP", "UI", "UID", "UUID",
   "URI", "URL", "UTF8", "VM", "XML", "XSRF", "XSS"]

/-- Go's built-in copy(dst[w:], src): overwrite dst starting at index w with
as many elements of src as fit. -/
def goCopy (dst : List Char) (w : Nat) (src : List Char) : List Char :=
  let m := min (dst.length - w) src.length
  dst.take w ++ src.take m ++ dst.drop (w + m)

/-- The word fixup performed by lintName once a word [w, i) has been
delimited: replace it by the canonical form of a recognized initialism
(lower-cased when it is the first word and originally started lowercase),
or capitalize a non-first all-lowercase word. -/
def fixWord (runes : List Char) (w i : Nat) : List Char :=
  let word := (runes.drop w).take (i - w)
  let u := word.map goToUpper
  if commonInitialisms.contains (String.mk u) then
    let u2 := if w = 0 ∧ goIsLower (runes.getD w ' ') then u.map goToLower else u
    goCopy runes w u2
  else if 0 < w ∧ word.map goToLower = word then
    runes.set w (goToUpper (runes.getD w ' '))
  else runes

/-- The scanning loop of lintName: splits camelCase at lower-to-non-lower
transitions and at runs of underscores (which are deleted, except that one
underscore is kept between two digits), fixing each delimited word with
`fixWord`.  `w` is the start of the current word and `i` the scan index,
exactly as in the source; the structural `fuel` argument bounds the number
of iterations and is initialized above the loop's maximal iteration count
(the scan index grows by one per iteration and the rune list never grows),
so the loop always terminates by its own guard, never by fuel exhaustion. -/
def lintScan : Nat → List Char → Nat → Nat → List Char
  | 0, runes, _, _ => runes
  | fuel + 1, runes, w, i =>
    if i + 1 ≤ runes.length then
      if i + 1 = runes.length then
        lintScan fuel (fixWord runes w (i + 1)) (i + 1) (i + 1)
      else if runes.getD (i + 1) ' ' = '_' then
        let n := ((runes.drop (i + 1)).takeWhile (fun c => c = '_')).length
        let n2 := if i + n + 1 < runes.length ∧ goIsDigit (runes.getD i ' ')
                     ∧ goIsDigit (runes.getD (i + n + 1) ' ')
                  then n - 1 else n
        let runes2 := runes.take (i + 1) ++ runes.drop (i + 1 + n2)
        lintScan fuel (fixWord runes2 w (i + 1)) (i + 1) (i + 1)
      else if goIsLower (runes.getD i ' ') ∧ goIsLower (runes.getD (i + 1) ' ') = false then
        lintScan fuel (fixWord runes w (i + 1)) (i + 1) (i + 1)
      else
        lintScan fuel runes w (i + 1)
    else runes

/-- lintName, copied from go lint: returns the name a linted identifier
should have.  Fast path for "_" and all-lowercase names, otherwise the
word-splitting scan. -/
def lintName (name : String) : String :=
  if name = "_" then name
  else if name.data.all goIsLower then name
  else String.mk (lintScan (name.data.length + 1) name.data 0 0)

/-- The command-line configuration: the -from and -to flag values and the
-auto flag (the source's package-level flag variables `from`, `to`, `auto`;
`from` is a Lean keyword, hence the Arg suffixes). -/
structure Config where
  fromArg : String
  toArg : String
  auto : Bool
deriving DecidableEq, Repr

/-- A parsed source file's syntax tree, as far as the rename engine
observes it: `ast.Inspect` visits every node and acts only on `*ast.Ident`
nodes, so the tree is modelled as interior nodes over identifier leaves
(carrying the mutable name) and non-identifier leaves. -/
inductive GoAst where
  | ident (name : String)
  | leaf
  | seq (fst snd : GoAst)
deriving DecidableEq, Repr

/-- The names of the identifier nodes of a tree, in visit order. -/
def identsOf : GoAst → List String
  | .ident n => [n]
  | .leaf => []
  | .seq a b => identsOf a ++ identsOf b

/-- The body of the `ast.Inspect` callback for one identifier node:
returns the node's new name, whether it changed, and the (old, new) pairs
inserted into the shared change log (insertions happen only on the auto
path; the exact-match path sets `changed` without logging). -/
def identStep (cfg : Config) (name : String) : String × Bool × List (String × String) :=
  if cfg.auto then
    if lintName name ≠ name then (lintName name, true, [(name, lintName name)])
    else (name, false, [])
  else if name = cfg.fromArg then (cfg.toArg, true, [])
  else (name, false, [])

/-- The walk over one file's tree: apply `identStep` to every identifier
node, collecting the rewritten tree, the file's `changed` flag, and the
change-log insertions in visit order. -/
def walkAst (cfg : Config) : GoAst → GoAst × Bool × List (String × String)
  | .ident name =>
    let r := identStep cfg name
    (.ident r.1, r.2.1, r.2.2)
  | .leaf => (.leaf, false, [])
  | .seq a b =>
    let ra := walkAst cfg a
    let rb := walkAst cfg b
    (.seq ra.1 rb.1, ra.2.1 || rb.2.1, ra.2.2 ++ rb.2.2)

/-- Whether one identifier matches the active policy's criterion, i.e.
whether visiting it sets the `changed` flag: on the auto path, lintName
proposes a different name; on the exact path, the name equals -from. -/
def identChanges (cfg : Config) (name : String) : Bool :=
  if cfg.auto then
    if lintName name ≠ name then true else false
  else
    if name = cfg.fromArg then true else false

/-- The environment's input for one file of a package: either the parse
fails, or it yields a tree, together with the write error `os.Create` or
the printer would report if this file were rewritten. -/
inductive FileInput where
  | parseFailure (msg : String)
  | parsed (tree : GoAst) (writeErr : Option String)
deriving DecidableEq, Repr

/-- The result of the per-file goroutine: success without touching the
file, success having overwritten it with the reprinted tree, or a failure
(parse or write error) returned to the group. -/
inductive FileOutcome where
  | ok (written : Option GoAst)
  | failed (msg : String)
deriving DecidableEq, Repr

/-- The per-file goroutine body in renameIn: parse, walk, and — only if
some identifier changed — overwrite the file with the rewritten tree.
Returns the outcome and the change-log insertions made during the walk
(made before the write, hence retained even on a write failure). -/
def fileTask (cfg : Config) (fi : FileInput) : FileOutcome × List (String × String) :=
  match fi with
  | .parseFailure msg => (.failed msg, [])
  | .parsed tree writeErr =>
    let r := walkAst cfg tree
    if r.2.1 = false then (.ok none, r.2.2)
    else
      match writeErr with
      | some e => (.failed e, r.2.2)
      | none => (.ok (some r.1), r.2.2)

/-- The environment's input for one requested package: either
`build.Import` fails, or it resolves to the package's files (GoFiles,
TestGoFiles and XTestGoFiles appended, each already parsed or not by the
environment). -/
inductive PkgResolution where
  | failure (msg : String)
  | ok (files : List FileInput)
deriving DecidableEq, Repr

/-- go4.org/syncutil's Group.Err: wait for all tasks and return the first
non-nil error, or nil.  (Completion order is scheduling-dependent; the
model takes file order.  The claims proved below do not depend on which
failing file's error is chosen.) -/
def firstError : List FileOutcome → Option String
  | [] => none
  | .failed m :: _ => some m
  | .ok _ :: rest => firstError rest

/-- renameIn for one package: on resolution failure return the error; else
run the per-file tasks and join them, returning the group's first error
(`wg.Err()`), every file's outcome, and the concatenated change-log
insertions. -/
def renameInModel (cfg : Config) (pkg : PkgResolution) :
    Option String × List FileOutcome × List (String × String) :=
  match pkg with
  | .failure msg => (some msg, [], [])
  | .ok files =>
    let results := files.map (fileTask cfg)
    (firstError (results.map (·.1)), results.map (·.1), (results.map (·.2)).flatten)

/-- The errors main collects from the outer group (`wg.Errs()`): one per
failing package — the package's resolution error, or its first failing
file's error. -/
def collectedErrs (cfg : Config) (pkgs : List PkgResolution) : List String :=
  pkgs.filterMap (fun p => (renameInModel cfg p).1)

/-- All change-log insertions of the run, in insertion order, before
deduplication by the map keyed on the pair. -/
def allPairs (cfg : Config) (pkgs : List PkgResolution) : List (String × String) :=
  (pkgs.map (fun p => (renameInModel cfg p).2.2)).flatten

/-- The file content written by a successful rewriting outcome. -/
def writeOf : FileOutcome → Option GoAst
  | .ok (some t) => some t
  | _ => none

/-- Every file content written during the run, across all packages;
each file's write depends only on that file's own task. -/
def allWrites (cfg : Config) (pkgs : List PkgResolution) : List GoAst :=
  ((pkgs.map (fun p => (renameInModel cfg p).2.1)).flatten).filterMap writeOf

/-- Whether a file outcome is a failure. -/
def isFailedOutcome : FileOutcome → Bool
  | .failed _ => true
  | .ok _ => false

/-- Whether any failure (package resolution, parse, or write) occurs in
the given package under the given configuration. -/
def pkgHasFailure (cfg : Config) : PkgResolution → Bool
  | .failure _ => true
  | .ok files => files.any (fun fi => isFailedOutcome (fileTask cfg fi).1)

/-- Number of files the run reads (each resolved package's files are all
read by the parser; a failed resolution reads none). -/
def filesReadCount (pkgs : List PkgResolution) : Nat :=
  (pkgs.map (fun p => match p with
    | .failure _ => 0
    | .ok fs => fs.length)).sum

/-- The flag-validation test at the top of main: auto combined with a
non-empty -from or -to, or auto off with -from or -to empty, is a usage
error. -/
def usageError (cfg : Config) : Bool :=
  (cfg.auto && (cfg.fromArg ≠ "" || cfg.toArg ≠ "")) ||
  (!cfg.auto && (cfg.fromArg = "" || cfg.toArg = ""))

/-- The usage line main prints to stderr (os.Args[0] modelled by the
command name). -/
def usageMsg : String :=
  "Usage: gorename-global [-from <name> -to <name>] [-auto] [pkg...]"

/-- One line of the change report, for the pair (old, new). -/
def fmtPair (p : String × String) : String :=
  "\t" ++ p.1 ++ " -> " ++ p.2

/-- The change report main prints on stdout when the change log is
non-empty: the header line, then one line per pair. -/
def changedReport (pairs : List (String × String)) : List String :=
  "Changed:" :: pairs.map fmtPair

/-- The observable result of a run: process exit status, stderr and stdout
lines, the number of files read, and the file contents written. -/
structure RunResult where
  exitCode : Nat
  stderr : List String
  stdout : List String
  filesRead : Nat
  writes : List GoAst
deriving DecidableEq, Repr

/-- main: validate the flags (usage error exits 1 before any file is
touched); otherwise run renameIn over every requested package, print every
collected error and exit 1 if there are any, else print the deduplicated
change log (if non-empty) and exit 0. -/
def mainModel (cfg : Config) (pkgs : List PkgResolution) : RunResult :=
  if usageError cfg then
    ⟨1, [usageMsg], [], 0, []⟩
  else
    let errs := collectedErrs cfg pkgs
    let pairs := (allPairs cfg pkgs).dedup
    if errs.isEmpty then
      ⟨0, [], if pairs.isEmpty then [] else changedReport pairs,
       filesReadCount pkgs, allWrites cfg pkgs⟩
    else
      ⟨1, errs, [], filesReadCount pkgs, allWrites cfg pkgs⟩

/-- Go's regexp `^[A-Z0-9_]+$` (allCapsRE in src/main.go). -/
def allCapsRE (name : String) : Bool :=
  name ≠ "" && name.data.all (fun c => ('A' ≤ c && c ≤ 'Z') || ('0' ≤ c && c ≤ '9') || c = '_')

/-- Go's regexp `^_+$` (allUndersRE in src/main.go). -/
def allUndersRE (name : String) : Bool :=
  name ≠ "" && name.data.all (fun c => c = '_')

/-- autoFix from src/main.go, the older auto-normalizer: rewrite only
ALL_CAPS names (letters, digits, underscores) that are not all underscores
and contain an underscore, by lowercasing and converting snake_case to
CamelCase.  The conversion is done by the external library function
snaker.SnakeToCamel, which is not part of this repository; it is taken as
a parameter, and every theorem below about autoFix holds for all values of
that parameter. -/
def autoFix (snakeToCamel : String → String) (name : String) : String :=
  if allCapsRE name && !allUndersRE name && name.data.contains '_' then
    snakeToCamel (String.mk (name.data.map goToLower))
  else name

/-! ### Helper lemmas about the walk -/

/-- Visiting one identifier sets the changed flag exactly when the
identifier matches the active policy's criterion. -/
theorem identStep_changed (cfg : Config) (n : String) :
    (identStep cfg n).2.1 = identChanges cfg n := by
  by_cases ha : cfg.auto = true
  · by_cases hn : lintName n = n <;> simp [identStep, identChanges, ha, hn]
  · rw [Bool.not_eq_true] at ha
    by_cases hf : n = cfg.fromArg <;> simp [identStep, identChanges, ha, hf]

/-- An unchanged identifier keeps its name and logs nothing. -/
theorem identStep_not_changed (cfg : Config) (n : String)
    (h : (identStep cfg n).2.1 = false) :
    (identStep cfg n).1 = n ∧ (identStep cfg n).2.2 = [] := by
  by_cases ha : cfg.auto = true
  · by_cases hn : lintName n = n
    · simp [identStep, ha, hn]
    · simp [identStep, ha, hn] at h
  · rw [Bool.not_eq_true] at ha
    by_cases hf : n = cfg.fromArg
    · simp [identStep, ha, hf] at h
    · simp [identStep, ha, hf]

/-- The walk sets the file's changed flag exactly when some identifier of
the file matches the active policy's criterion. -/
theorem walkAst_changed_eq_any (cfg : Config) (t : GoAst) :
    (walkAst cfg t).2.1 = (identsOf t).any (identChanges cfg) := by
  induction t with
  | ident n => simpa [walkAst, identsOf] using identStep_changed cfg n
  | leaf => simp [walkAst, identsOf]
  | seq a b iha ihb => simp [walkAst, identsOf, List.any_append, iha, ihb]

/-- A walk that changes nothing returns the tree unchanged and logs no
pair. -/
theorem walkAst_not_changed (cfg : Config) (t : GoAst)
    (h : (walkAst cfg t).2.1 = false) :
    (walkAst cfg t).1 = t ∧ (walkAst cfg t).2.2 = [] := by
  induction t with
  | ident n =>
    have h' : (identStep cfg n).2.1 = false := by simpa [walkAst] using h
    obtain ⟨h1, h2⟩ := identStep_not_changed cfg n h'
    simp [walkAst, h1, h2]
  | leaf => simp [walkAst]
  | seq a b iha ihb =>
    simp only [walkAst, Bool.or_eq_false_iff] at h
    obtain ⟨e1, p1⟩ := iha h.1
    obtain ⟨e2, p2⟩ := ihb h.2
    simp [walkAst, e1, e2, p1, p2]

/-- If the policy can actually rename (auto mode, or exact mode with
distinct -from and -to), a walk that set the changed flag returns a tree
different from the original. -/
theorem walkAst_changed_ne (cfg : Config) (t : GoAst)
    (hm : cfg.auto = true ∨ cfg.fromArg ≠ cfg.toArg)
    (h : (walkAst cfg t).2.1 = true) :
    (walkAst cfg t).1 ≠ t := by
  induction t with
  | ident n =>
    by_cases ha : cfg.auto = true
    · by_cases hn : lintName n = n
      · simp [walkAst, identStep, ha, hn] at h
      · simp [walkAst, identStep, ha, hn]
    · rw [Bool.not_eq_true] at ha
      have hft : cfg.fromArg ≠ cfg.toArg := by
        rcases hm with hm | hm
        · rw [ha] at hm; exact absurd hm (by simp)
        · exact hm
      by_cases hf : n = cfg.fromArg
      · simp [walkAst, identStep, ha, hf]
        exact fun e => hft e.symm
      · simp [walkAst, identStep, ha, hf] at h
  | leaf => simp [walkAst] at h
  | seq a b iha ihb =>
    simp only [walkAst, Bool.or_eq_true] at h
    simp only [walkAst, ne_eq, GoAst.seq.injEq, not_and]
    rcases h with h | h
    · intro e1 _; exact iha h e1
    · intro _ e2; exact ihb h e2

/-- Every pair the walk logs is a genuine change: old name and new name
differ. -/
theorem walkAst_pairs_ne (cfg : Config) (t : GoAst) :
    ∀ q ∈ (walkAst cfg t).2.2, q.1 ≠ q.2 := by
  induction t with
  | ident n =>
    intro q hq
    by_cases ha : cfg.auto = true
    · by_cases hn : lintName n = n
      · simp [walkAst, identStep, ha, hn] at hq
      · simp [walkAst, identStep, ha, hn] at hq
        rw [hq]
        exact fun e => hn e.symm
    · rw [Bool.not_eq_true] at ha
      by_cases hf : n = cfg.fromArg <;> simp [walkAst, identStep, ha, hf] at hq
  | leaf => intro q hq; simp [walkAst] at hq
  | seq a b iha ihb =>
    intro q hq
    simp only [walkAst, List.mem_append] at hq
    rcases hq with h | h
    exacts [iha q h, ihb q h]

/-- In exact-match mode the walk logs nothing: change-log insertions
happen only on the auto path. -/
theorem walkAst_pairs_exact (cfg : Config) (t : GoAst) (ha : cfg.auto = false) :
    (walkAst cfg t).2.2 = [] := by
  induction t with
  | ident n => by_cases hf : n = cfg.fromArg <;> simp [walkAst, identStep, ha, hf]
  | leaf => simp [walkAst]
  | seq a b iha ihb => simp [walkAst, iha, ihb]

/-! ### Helper lemmas about the file and package tasks -/

/-- The change-log insertions of a file task are exactly those of its
walk (a parse failure logs nothing; a write failure happens after the
walk, so its insertions are retained). -/
theorem fileTask_pairs (cfg : Config) (t : GoAst) (werr : Option String) :
    (fileTask cfg (.parsed t werr)).2 = (walkAst cfg t).2.2 := by
  by_cases hc : (walkAst cfg t).2.1 = false
  · simp [fileTask, hc]
  · cases werr <;> simp [fileTask, hc]

/-- In exact-match mode a file task logs nothing. -/
theorem fileTask_pairs_exact (cfg : Config) (fi : FileInput) (ha : cfg.auto = false) :
    (fileTask cfg fi).2 = [] := by
  cases fi with
  | parseFailure msg => rfl
  | parsed t werr => rw [fileTask_pairs, walkAst_pairs_exact cfg t ha]

/-- In exact-match mode the whole run's change log is empty. -/
theorem allPairs_exact (cfg : Config) (pkgs : List PkgResolution)
    (ha : cfg.auto = false) : allPairs cfg pkgs = [] := by
  unfold allPairs
  rw [List.flatten_eq_nil_iff]
  intro l hl
  simp only [List.mem_map] at hl
  obtain ⟨p, _, hp⟩ := hl
  subst hp
  cases p with
  | failure msg => rfl
  | ok files =>
    simp only [renameInModel]
    rw [List.flatten_eq_nil_iff]
    intro l' hl'
    simp only [List.map_map, List.mem_map] at hl'
    obtain ⟨fi, _, hfi⟩ := hl'
    subst hfi
    exact fileTask_pairs_exact cfg fi ha

/-- Every pair in the run's change log is a genuine change. -/
theorem allPairs_ne (cfg : Config) (pkgs : List PkgResolution) :
    ∀ q ∈ allPairs cfg pkgs, q.1 ≠ q.2 := by
  intro q hq
  unfold allPairs at hq
  rw [List.mem_flatten] at hq
  obtain ⟨l, hl, hql⟩ := hq
  simp only [List.mem_map] at hl
  obtain ⟨p, _, hp⟩ := hl
  subst hp
  cases p with
  | failure msg => simp [renameInModel] at hql
  | ok files =>
    simp only [renameInModel] at hql
    rw [List.mem_flatten] at hql
    obtain ⟨l', hl', hql'⟩ := hql
    simp only [List.map_map, List.mem_map] at hl'
    obtain ⟨fi, _, hfi⟩ := hl'
    subst hfi
    cases fi with
    | parseFailure msg => simp [fileTask] at hql'
    | parsed t werr =>
      rw [Function.comp_apply, fileTask_pairs] at hql'
      exact walkAst_pairs_ne cfg t q hql'

/-- go4 Group.Err returns nil exactly when no task failed. -/
theorem firstError_eq_none (os : List FileOutcome) :
    firstError os = none ↔ ∀ o ∈ os, isFailedOutcome o = false := by
  induction os with
  | nil => simp [firstError]
  | cons o rest ih =>
    cases o with
    | failed m => simp [firstError, isFailedOutcome]
    | ok w => simp [firstError, isFailedOutcome, ih]

/-- A package contributes no error exactly when nothing in it failed. -/
theorem renameIn_err_none (cfg : Config) (p : PkgResolution) :
    (renameInModel cfg p).1 = none ↔ pkgHasFailure cfg p = false := by
  cases p with
  | failure msg => simp [renameInModel, pkgHasFailure]
  | ok files =>
    simp only [renameInModel, pkgHasFailure]
    rw [firstError_eq_none, List.any_eq_false]
    simp [List.map_map]

/-- main collects no errors exactly when no package had any failure. -/
theorem collectedErrs_nil (cfg : Config) (pkgs : List PkgResolution) :
    collectedErrs cfg pkgs = [] ↔ ∀ p ∈ pkgs, pkgHasFailure cfg p = false := by
  unfold collectedErrs
  rw [List.filterMap_eq_nil_iff]
  constructor <;> intro h p hp
  · exact (renameIn_err_none cfg p).mp (h p hp)
  · exact (renameIn_err_none cfg p).mpr (h p hp)

/-! ### The claims -/

/-- C1: the claim says the normalization transform is idempotent.  It is
not: the underscore removal in lintName can juxtapose two words whose
concatenation spells an initialism that only the second pass recognizes.
On "T_Tl" the first pass deletes the underscore, splits the words "T" and
"Tl" (neither is an initialism) and returns "TTl"; the second pass sees
the single word "TTl", whose uppercasing "TTL" is in the initialism table,
and returns "TTL".  So a second auto pass over an already-normalized tree
does change identifiers, contradicting the stated requirement. -/
theorem lintName_not_idempotent :
    lintName "T_Tl" = "TTl" ∧ lintName "TTl" = "TTL" ∧
    lintName (lintName "T_Tl") ≠ lintName "T_Tl" := by decide

/-- C3: the normalization transform maps the spec's example inputs exactly
as stated. -/
theorem lintName_spec_examples :
    lintName "person_id" = "personID" ∧ lintName "IpAddress" = "IPAddress" ∧
    lintName "APIProxy" = "APIProxy" := by decide

/-- C4: a name that is exactly a single underscore, or consists entirely
of lowercase letters, is returned unchanged by the normalization
transform (the fast path). -/
theorem lintName_fast_path (name : String)
    (h : name = "_" ∨ name.data.all goIsLower = true) : lintName name = name := by
  rcases h with h | h
  · simp [lintName, h]
  · by_cases h1 : name = "_"
    · simp [lintName, h1]
    · simp [lintName, h1, h]

/-- Witness for C4 at the spec's own examples. -/
theorem lintName_fast_path_witness :
    ("lowercaseonly".data.all goIsLower = true ∧
      lintName "lowercaseonly" = "lowercaseonly") ∧
    lintName "_" = "_" :=
  ⟨⟨by decide, lintName_fast_path "lowercaseonly" (Or.inr (by decide))⟩,
   lintName_fast_path "_" (Or.inl rfl)⟩

/-- C2: in exact-match mode every identifier node whose name is literally
-from gets name -to, and every other identifier node keeps its name —
case-sensitive, whole token only: per node the new name is
`if name = from then to else name`, and the walk applies exactly that map
to the file's identifier list. -/
theorem exact_rename_exactly (cfg : Config) (t : GoAst) (ha : cfg.auto = false) :
    (∀ n, (identStep cfg n).1 = if n = cfg.fromArg then cfg.toArg else n)
    ∧ identsOf (walkAst cfg t).1 =
        (identsOf t).map (fun n => if n = cfg.fromArg then cfg.toArg else n) := by
  constructor
  · intro n
    by_cases hf : n = cfg.fromArg <;> simp [identStep, ha, hf]
  · induction t with
    | ident n =>
      by_cases hf : n = cfg.fromArg <;> simp [walkAst, identStep, identsOf, ha, hf]
    | leaf => simp [walkAst, identsOf]
    | seq a b iha ihb => simp [walkAst, identsOf, iha, ihb]

/-- Witness for C2: the spec's end-to-end scenario — from=foo, to=bar on
identifiers foo, Foo, foobar renames only foo. -/
theorem exact_rename_exactly_witness :
    (Config.mk "foo" "bar" false).auto = false ∧
    identsOf (walkAst (Config.mk "foo" "bar" false)
        (.seq (.ident "foo") (.seq (.ident "Foo") (.ident "foobar")))).1
      = ["bar", "Foo", "foobar"] :=
  ⟨rfl,
   ((exact_rename_exactly (Config.mk "foo" "bar" false)
      (.seq (.ident "foo") (.seq (.ident "Foo") (.ident "foobar"))) rfl).2).trans
     (by decide)⟩

/-- C5, counterexample to the claim as stated: with the accepted
configuration from=foo, to=foo (exact mode), a file containing an
identifier foo is rewritten — the write happens and the written tree is
byte-for-byte the original — even though no identifier's name actually
changes, because the walk sets the changed flag on a -from match without
comparing the new name to the old. -/
theorem exact_rewrite_without_change :
    usageError ⟨"foo", "foo", false⟩ = false ∧
    (fileTask ⟨"foo", "foo", false⟩ (.parsed (.ident "foo") none)).1
      = .ok (some (.ident "foo")) := by decide

/-- C5 as amended: in auto mode, and in exact-match mode whenever
from ≠ to, a file is rewritten only if some identifier's name actually
changes (the written tree differs from the original); and a file with no
identifier matching the active policy's criterion is left untouched — no
write occurs. -/
theorem fileWrite_iff_change (cfg : Config) (t : GoAst) (werr : Option String) :
    ((cfg.auto = true ∨ cfg.fromArg ≠ cfg.toArg) →
      ∀ t2, (fileTask cfg (.parsed t werr)).1 = .ok (some t2) → t2 ≠ t)
    ∧ ((identsOf t).any (identChanges cfg) = false →
        fileTask cfg (.parsed t werr) = (.ok none, [])) := by
  constructor
  · intro hm t2 hw
    by_cases hc : (walkAst cfg t).2.1 = false
    · simp [fileTask, hc] at hw
    · rw [Bool.not_eq_false] at hc
      cases werr with
      | some e => simp [fileTask, hc] at hw
      | none =>
        simp only [fileTask, hc, Bool.true_eq_false, if_false] at hw
        rw [FileOutcome.ok.injEq, Option.some.injEq] at hw
        rw [← hw]
        exact walkAst_changed_ne cfg t hm hc
  · intro h
    have hc : (walkAst cfg t).2.1 = false := by rw [walkAst_changed_eq_any]; exact h
    obtain ⟨-, hp⟩ := walkAst_not_changed cfg t hc
    simp [fileTask, hc, hp]

/-- Witness for C5's amended statement: a real rename (from=a, to=b) does
change the written tree, and a file with no matching identifier is
untouched. -/
theorem fileWrite_iff_change_witness :
    ((GoAst.ident "b" : GoAst) ≠ GoAst.ident "a")
    ∧ ((identsOf (GoAst.ident "c")).any (identChanges ⟨"a", "b", false⟩) = false ∧
       fileTask ⟨"a", "b", false⟩ (.parsed (.ident "c") none) = (.ok none, [])) :=
  ⟨(fileWrite_iff_change ⟨"a", "b", false⟩ (.ident "a") none).1 (Or.inr (by decide))
      (.ident "b") (by decide),
   by decide,
   (fileWrite_iff_change ⟨"a", "b", false⟩ (.ident "c") none).2 (by decide)⟩

/-- C6, counterexample to the claim as stated: for auto=true, from="",
to="x", exactly one of {auto active} and {both from and to non-empty}
holds (the first), yet the program rejects the configuration: it prints
the usage message, exits 1, and reads and writes no file. -/
theorem exactly_one_formula_mismatch :
    ((Config.mk "" "x" true).auto = true ∧
      ¬((Config.mk "" "x" true).fromArg ≠ "" ∧ (Config.mk "" "x" true).toArg ≠ ""))
    ∧ mainModel (Config.mk "" "x" true) [.ok [.parsed (.ident "a") none]]
        = ⟨1, [usageMsg], [], 0, []⟩ := by decide

/-- C6 as amended: the configuration is accepted iff auto mode is active
with from and to both empty, or auto is off with from and to both
non-empty; any other combination is a usage error — the usage message is
printed to the error stream and the process exits with status 1 having
read and written no file. -/
theorem config_validation (cfg : Config) (pkgs : List PkgResolution) :
    (usageError cfg = false ↔
      (cfg.auto = true ∧ cfg.fromArg = "" ∧ cfg.toArg = "") ∨
      (cfg.auto = false ∧ cfg.fromArg ≠ "" ∧ cfg.toArg ≠ ""))
    ∧ (usageError cfg = true → mainModel cfg pkgs = ⟨1, [usageMsg], [], 0, []⟩) := by
  constructor
  · obtain ⟨f, t, a⟩ := cfg
    cases a <;> by_cases hf : f = "" <;> by_cases ht : t = "" <;>
      simp [usageError, hf, ht]
  · intro h
    simp [mainModel, h]

/-- Witness for C6's amended statement at auto=true, to="x". -/
theorem config_validation_witness :
    usageError ⟨"", "x", true⟩ = true ∧
    mainModel ⟨"", "x", true⟩ [PkgResolution.ok [.parsed (.ident "b") none]]
      = ⟨1, [usageMsg], [], 0, []⟩ :=
  ⟨by decide,
   (config_validation ⟨"", "x", true⟩ [PkgResolution.ok [.parsed (.ident "b") none]]).2
     (by decide)⟩

/-- C7: on a valid configuration the process exits with status zero iff no
failure (package resolution, parse, or write) occurred in any file of any
package; on failure every collected failure message is printed to the
error stream (one per failing package: the resolution error or the
package's first failing file's error, since the package worker joins its
files with Group.Err); and every successful rewrite is retained regardless
of failures in sibling files and packages. -/
theorem orchestrator_exit_and_errors (cfg : Config) (pkgs : List PkgResolution)
    (hv : usageError cfg = false) :
    ((mainModel cfg pkgs).exitCode = 0 ↔ ∀ p ∈ pkgs, pkgHasFailure cfg p = false)
    ∧ ((mainModel cfg pkgs).exitCode = 0 → (mainModel cfg pkgs).stderr = [])
    ∧ ((mainModel cfg pkgs).exitCode ≠ 0 →
        (mainModel cfg pkgs).stderr = collectedErrs cfg pkgs ∧ collectedErrs cfg pkgs ≠ [])
    ∧ (mainModel cfg pkgs).writes = allWrites cfg pkgs := by
  by_cases he : (collectedErrs cfg pkgs).isEmpty = true
  · have hnil : collectedErrs cfg pkgs = [] := List.isEmpty_iff.mp he
    have hall := (collectedErrs_nil cfg pkgs).mp hnil
    have hm : mainModel cfg pkgs =
        ⟨0, [],
         if ((allPairs cfg pkgs).dedup).isEmpty then []
         else changedReport (allPairs cfg pkgs).dedup,
         filesReadCount pkgs, allWrites cfg pkgs⟩ := by
      simp [mainModel, hv, he]
    rw [hm]
    exact ⟨by simpa using hall, fun _ => rfl, fun h => absurd rfl h, rfl⟩
  · rw [Bool.not_eq_true] at he
    have hne : collectedErrs cfg pkgs ≠ [] := by
      intro h0
      rw [h0] at he
      exact absurd he (by decide)
    have hm : mainModel cfg pkgs =
        ⟨1, collectedErrs cfg pkgs, [], filesReadCount pkgs, allWrites cfg pkgs⟩ := by
      simp [mainModel, hv, he]
    rw [hm]
    refine ⟨?_, fun h => (Nat.one_ne_zero h).elim, fun _ => ⟨rfl, hne⟩, rfl⟩
    constructor
    · intro h
      exact (Nat.one_ne_zero h).elim
    · intro hall
      exact absurd ((collectedErrs_nil cfg pkgs).mpr hall) hne

/-- Witness for C7: exact-match run (from=a, to=b) over a failing package
and a succeeding one; the exit status is governed by the failure and the
successful rewrite (a renamed to b) is still written. -/
theorem orchestrator_exit_and_errors_witness :
    usageError ⟨"a", "b", false⟩ = false ∧
    ((mainModel ⟨"a", "b", false⟩
        [.failure "nopkg", .ok [.parsed (.ident "a") none]]).exitCode = 0 ↔
      ∀ p ∈ [PkgResolution.failure "nopkg",
             PkgResolution.ok [.parsed (.ident "a") none]],
        pkgHasFailure ⟨"a", "b", false⟩ p = false) ∧
    (mainModel ⟨"a", "b", false⟩
        [.failure "nopkg", .ok [.parsed (.ident "a") none]]).writes
      = [GoAst.ident "b"] :=
  ⟨by decide,
   (orchestrator_exit_and_errors ⟨"a", "b", false⟩
      [.failure "nopkg", .ok [.parsed (.ident "a") none]] (by decide)).1,
   ((orchestrator_exit_and_errors ⟨"a", "b", false⟩
      [.failure "nopkg", .ok [.parsed (.ident "a") none]] (by decide)).2.2.2).trans
     (by decide)⟩

/-- C8: after all tasks have joined, the change report is printed only in
auto mode and only if some identifier changed (never on a failing run,
where main exits after printing the failures); when printed it is the
header line "Changed:" followed by exactly one line per distinct
(old, new) pair of the deduplicated change set; and the deduplicated set
has no duplicates and exactly the members of the collected insertions. -/
theorem change_report_shape (cfg : Config) (pkgs : List PkgResolution)
    (hv : usageError cfg = false) :
    ((mainModel cfg pkgs).stdout ≠ [] → cfg.auto = true ∧ allPairs cfg pkgs ≠ [])
    ∧ (collectedErrs cfg pkgs = [] → allPairs cfg pkgs ≠ [] →
        (mainModel cfg pkgs).stdout = "Changed:" :: (allPairs cfg pkgs).dedup.map fmtPair)
    ∧ (allPairs cfg pkgs).dedup.Nodup
    ∧ (∀ q, q ∈ (allPairs cfg pkgs).dedup ↔ q ∈ allPairs cfg pkgs) := by
  have hstdout_nil : allPairs cfg pkgs = [] → (mainModel cfg pkgs).stdout = [] := by
    intro h0
    by_cases he : (collectedErrs cfg pkgs).isEmpty = true
    · simp [mainModel, hv, he, h0]
    · rw [Bool.not_eq_true] at he
      simp [mainModel, hv, he]
  refine ⟨?_, ?_, List.nodup_dedup _, fun q => List.mem_dedup⟩
  · intro hs
    constructor
    · by_contra hc
      rw [Bool.not_eq_true] at hc
      exact hs (hstdout_nil (allPairs_exact cfg pkgs hc))
    · intro h0
      exact hs (hstdout_nil h0)
  · intro h1 h2
    have he : (collectedErrs cfg pkgs).isEmpty = true := by rw [h1]; rfl
    have hd : ((allPairs cfg pkgs).dedup).isEmpty = false := by
      rw [Bool.eq_false_iff]
      intro hd
      exact h2 ((List.dedup_eq_nil _).mp (List.isEmpty_iff.mp hd))
    simp [mainModel, hv, he, hd, changedReport]

/-- Witness for C8: an auto run over a file with two occurrences of
person_id prints the header and exactly one deduplicated report line. -/
theorem change_report_shape_witness :
    usageError ⟨"", "", true⟩ = false ∧
    (mainModel ⟨"", "", true⟩
        [.ok [.parsed (.seq (.ident "person_id") (.ident "person_id")) none]]).stdout
      = ["Changed:", "\tperson_id -> personID"] :=
  ⟨by decide,
   ((change_report_shape ⟨"", "", true⟩
      [.ok [.parsed (.seq (.ident "person_id") (.ident "person_id")) none]]
      (by decide)).2.1 (by decide) (by decide)).trans (by decide)⟩

/-- C9, counterexample to the claim as stated: the two auto-normalizers in
the repository are not extensionally equal.  autoFix (src/main.go) leaves
"person_id" unchanged — the name is not ALL_CAPS, so the rewrite branch is
not taken and the snaker collaborator (here instantiated with id) is never
consulted — while lintName (the newer normalizer) maps it to "personID". -/
theorem autoFix_lintName_disagree :
    autoFix id "person_id" = "person_id" ∧ lintName "person_id" = "personID" ∧
    autoFix id "person_id" ≠ lintName "person_id" := by decide

/-- C9 as amended: the two normalizers differ.  For every implementation
of the external snake-to-camel conversion, autoFix returns "person_id" and
"IpAddress" unchanged (they do not match ^[A-Z0-9_]+$), while lintName
normalizes both, so autoFix and lintName disagree at these inputs. -/
theorem autoFix_differs_from_lintName (s2c : String → String) :
    autoFix s2c "person_id" = "person_id" ∧ autoFix s2c "IpAddress" = "IpAddress" ∧
    lintName "person_id" = "personID" ∧ lintName "IpAddress" = "IPAddress" ∧
    autoFix s2c "person_id" ≠ lintName "person_id" := by
  have h1 : autoFix s2c "person_id" = "person_id" := by
    unfold autoFix
    rw [if_neg (by decide)]
  have h2 : autoFix s2c "IpAddress" = "IpAddress" := by
    unfold autoFix
    rw [if_neg (by decide)]
  refine ⟨h1, h2, by decide, by decide, ?_⟩
  rw [h1]
  decide

/-- C10: every (old, new) pair in the run's change log is a genuine change
(old differs from new); change-log insertions happen only in auto mode, so
after an exact-match run the change set is empty; and consequently an
exact-match run never prints a "Changed:" report. -/
theorem changeLog_invariants (cfg : Config) (pkgs : List PkgResolution) :
    (∀ q ∈ allPairs cfg pkgs, q.1 ≠ q.2)
    ∧ (cfg.auto = false → allPairs cfg pkgs = [])
    ∧ (cfg.auto = false → (mainModel cfg pkgs).stdout = []) := by
  refine ⟨allPairs_ne cfg pkgs, allPairs_exact cfg pkgs, ?_⟩
  intro ha
  have h0 := allPairs_exact cfg pkgs ha
  by_cases hu : usageError cfg = true
  · simp [mainModel, hu]
  · rw [Bool.not_eq_true] at hu
    by_cases he : (collectedErrs cfg pkgs).isEmpty = true
    · simp [mainModel, hu, he, h0]
    · rw [Bool.not_eq_true] at he
      simp [mainModel, hu, he]

/-- Witness for C10: an auto run logs the genuine pair
(person_id, personID); an exact run logs nothing and prints nothing. -/
theorem changeLog_invariants_witness :
    ("person_id", "personID") ∈
        allPairs ⟨"", "", true⟩ [.ok [.parsed (.ident "person_id") none]] ∧
    ("person_id" : String) ≠ "personID" ∧
    (mainModel ⟨"c", "d", false⟩ [.ok [.parsed (.ident "e") none]]).stdout = [] :=
  ⟨by decide,
   (changeLog_invariants ⟨"", "", true⟩ [.ok [.parsed (.ident "person_id") none]]).1
     ("person_id", "personID") (by decide),
   (changeLog_invariants ⟨"c", "d", false⟩ [.ok [.parsed (.ident "e") none]]).2.2 rfl⟩
